import Mathlib

/-!
# Verification of the panoptic_mapping integration and evaluation core

Shallow embedding of the algorithmic core of the `panoptic_mapping`
repository:

* `MapEvaluator::computeReconstructionError` and
  `MapEvaluator::visualizeReconstructionError`
  (`panoptic_mapping_utils/src/evaluation/map_evaluator.cpp`),
* `MapEvaluator::evaluate` orchestration (same file),
* `NaiveIntegrator::processPointcloud`
  (`panoptic_mapping/src/integrator/naive_integrator.cpp`).

Floating-point values (`float`) are modelled as exact rationals `ℚ`;
`sqrt` applications are modelled relationally (a reported value `r` stands
for `sqrt x` iff `0 ≤ r ∧ r ^ 2 = x`) so that all definitions stay
computable.  External collaborators (the bounds policy `FlatBounds`, the
planning interface's `getDistance`, the kd-tree, the voxblox interpolator,
the TSDF integration backend, PLY/map loaders) are parameters of the
embedding, exactly as the spec treats them (§6 external interfaces).
-/

namespace PanopticMapping

/-! ## Reconstruction-error pass (`computeReconstructionError`, lines 121-188)

The pass iterates over the ground-truth cloud; out-of-bounds points are
skipped, points with unknown distance increment `unknown_points`, known
distances are clamped at `maximum_distance` (incrementing
`truncated_points`) and their absolute value is appended to `abserror`. -/

/-- Accumulator of the evaluation loop: `unknown_points`, `truncated_points`
and the `abserror` vector of `computeReconstructionError`. -/
structure ErrorAcc where
  unknown : ℕ
  truncated : ℕ
  samples : List ℚ
  deriving Repr, DecidableEq

/-- One iteration of the loop over `*gt_ptcloud_` (map_evaluator.cpp:140-162),
for a point `p`: bounds check, distance query, clamping and sample append.
`bounds` models `FlatBounds::pointIsValid`, `getDist` models
`PlanningInterface::getDistance` (`some d` iff the query succeeds). -/
def errorStep {P : Type} (bounds : P → Bool) (getDist : P → Option ℚ)
    (maxd : ℚ) (acc : ErrorAcc) (p : P) : ErrorAcc :=
  if bounds p then
    match getDist p with
    | some d =>
        let d2 := if |d| > maxd then maxd else d
        { acc with
          truncated := if |d| > maxd then acc.truncated + 1 else acc.truncated,
          samples := acc.samples ++ [|d2|] }
    | none => { acc with unknown := acc.unknown + 1 }
  else acc

/-- The whole evaluation loop of `computeReconstructionError` over the
ground-truth cloud. -/
def errorPass {P : Type} (bounds : P → Bool) (getDist : P → Option ℚ)
    (maxd : ℚ) (cloud : List P) : ErrorAcc :=
  cloud.foldl (errorStep bounds getDist maxd) ⟨0, 0, []⟩

/-- Number of ground-truth points accepted by the bounds policy. -/
def inBoundsCount {P : Type} (bounds : P → Bool) (cloud : List P) : ℕ :=
  (cloud.filter bounds).length

/-! ## Summary statistics (map_evaluator.cpp:165-187)

The code accumulates `mean += value; rmse += value²` in one loop, divides
by `n` (and takes a square root for `rmse`) only when `abserror` is
non-empty, then accumulates `stddev += (value − mean)²` in a second loop
and replaces `stddev` by `sqrt(stddev / (n − 1))` only when `n > 2`. -/

/-- The first report loop: simultaneous accumulation of `Σ value` (into
`mean`) and `Σ value²` (into `rmse`), map_evaluator.cpp:168-171. -/
def sumAndSumSq (xs : List ℚ) : ℚ × ℚ :=
  xs.foldl (fun a v => (a.1 + v, a.2 + v * v)) (0, 0)

/-- The `mean` value reported by the code: the accumulated sum, divided by
`n` only when the sample list is non-empty (map_evaluator.cpp:172-173). -/
def meanOut (xs : List ℚ) : ℚ :=
  if xs.isEmpty then (sumAndSumSq xs).1
  else (sumAndSumSq xs).1 / (xs.length : ℚ)

/-- The radicand `Σ value² / n` handed to `sqrt` for `rmse` when the sample
list is non-empty (map_evaluator.cpp:174). -/
def rmseArg (xs : List ℚ) : ℚ :=
  (sumAndSumSq xs).2 / (xs.length : ℚ)

/-- The second report loop: `stddev += (value − mean)²` over all samples
(map_evaluator.cpp:176-179); this is the value of the `stddev` variable
just before the conditional square root. -/
def stddevSum (xs : List ℚ) : ℚ :=
  xs.foldl (fun a v => a + (v - meanOut xs) ^ 2) 0

/-- `r` is the `rmse` the code reports: `0` for an empty sample list
(the initial value is never touched), else `sqrt(Σ value² / n)`
(map_evaluator.cpp:167,172-175).  `sqrt` is modelled by its defining
property `0 ≤ r ∧ r ^ 2 = x`. -/
def reportedRmseIs (xs : List ℚ) (r : ℝ) : Prop :=
  if xs.isEmpty then r = 0
  else 0 ≤ r ∧ r ^ 2 = (rmseArg xs : ℝ)

/-- `s` is the `stddev` the code reports: `sqrt(Σ(value−mean)²/(n−1))` when
`abserror.size() > 2`, and otherwise the raw accumulated sum
`Σ(value−mean)²` itself (map_evaluator.cpp:176-182). -/
def reportedStddevIs (xs : List ℚ) (s : ℝ) : Prop :=
  if 2 < xs.length then
    0 ≤ s ∧ s ^ 2 = ((stddevSum xs / ((xs.length : ℚ) - 1)) : ℝ)
  else s = (stddevSum xs : ℝ)

/-! ## Progress reporting (map_evaluator.cpp:134-162)

`interval = total_points / 100` in `uint64_t` arithmetic (truncating
division), and each loop iteration that survives the bounds check executes
`count % interval`.  In C++ the remainder with divisor `0` is undefined
behaviour. -/

/-- The `interval` of the progress bar: `total_points / 100` with
truncating unsigned division (map_evaluator.cpp:135). -/
def progressInterval (total_points : ℕ) : ℕ :=
  total_points / 100

/-- Divisors of the `count % interval` operations actually executed by the
loop: one per ground-truth point that passes the bounds check (the
`continue` for out-of-bounds points skips the progress code,
map_evaluator.cpp:140-161). -/
def progressModuloDivisors {P : Type} (bounds : P → Bool) (cloud : List P) :
    List ℕ :=
  (cloud.filter bounds).map (fun _ => progressInterval cloud.length)

/-- The loop with the progress display attached: alongside the `ErrorAcc`
it collects the fractions handed to `ProgressBar::display`.  A `none`
entry marks an iteration whose `count % interval` has divisor `0`
(undefined behaviour in the source). -/
def errorStepWithProgress {P : Type} (bounds : P → Bool)
    (getDist : P → Option ℚ) (maxd : ℚ) (total_points : ℕ)
    (st : ErrorAcc × ℕ × List (Option ℚ)) (p : P) :
    ErrorAcc × ℕ × List (Option ℚ) :=
  let (acc, count, displays) := st
  if bounds p then
    let acc' := errorStep bounds getDist maxd acc p
    let interval := progressInterval total_points
    let displays' :=
      if interval = 0 then displays ++ [none]
      else if count % interval = 0 then
        displays ++ [some ((count : ℚ) / (total_points : ℚ))]
      else displays
    (acc', count + 1, displays')
  else (acc, count, displays)

/-- The full evaluation loop including progress reporting. -/
def errorPassWithProgress {P : Type} (bounds : P → Bool)
    (getDist : P → Option ℚ) (maxd : ℚ) (cloud : List P) :
    ErrorAcc × ℕ × List (Option ℚ) :=
  cloud.foldl (errorStepWithProgress bounds getDist maxd cloud.length)
    (⟨0, 0, []⟩, 0, [])

/-! ## Evaluation orchestration (`MapEvaluator::evaluate`, lines 39-119)

The request is validated first (`isValid` runs `checkParams`, which is
`checkParamGT(maximum_distance, 0.f)`); then the ground-truth cloud and the
map are loaded on demand, the CSV sink is opened, and the requested
computations run.  File-system interactions are recorded as `Effect`s. -/

/-- `MapEvaluator::EvaluationRequest` (the fields the orchestration reads).
`maximum_distance` is a `float`, modelled as `ℚ`. -/
structure EvaluationRequest where
  map_file : String
  ground_truth_pointcloud_file : String
  maximum_distance : ℚ
  evaluate : Bool
  visualize : Bool
  compute_coloring : Bool

/-- `EvaluationRequest::checkParams` / `isValid`: `checkParamGT` demands
`maximum_distance > 0` (map_evaluator.cpp:17-19). -/
def requestIsValid (req : EvaluationRequest) : Bool :=
  decide (0 < req.maximum_distance)

/-- Persistent fields of the `MapEvaluator` instance that survive across
calls to `evaluate`: the ground-truth cloud and the loaded submap
collection (`gt_ptcloud_`, `submaps_`). -/
structure EvaluatorState (Cloud MapT : Type) where
  gt_ptcloud : Option Cloud
  submaps : Option MapT

/-- The external collaborators of `evaluate`: the PLY loader, the map
loader and the output-file opener (`some`/`true` on success). -/
structure EvalOracles (Cloud MapT : Type) where
  loadPLY : String → Option Cloud
  loadMap : String → Option MapT
  openOutput : Bool

/-- File-system and computation effects performed by a run of
`evaluate`, in order. -/
inductive Effect where
  | loadGT (path : String)
  | loadMap (path : String)
  | openOutput
  | writeCSV
  | coloring
  | saveMap
  | visualize
  deriving Repr, DecidableEq

/-- The ground-truth loading stage (map_evaluator.cpp:46-63): only entered
when `evaluate` or `compute_coloring` is requested; a non-empty path is
loaded (failure resets `gt_ptcloud_` and aborts), an empty path falls
through to the `if (!gt_ptcloud_)` null check, which aborts only when no
cloud is held from before.  Returns `none` on abort. -/
def gtStage {Cloud MapT : Type} (o : EvalOracles Cloud MapT)
    (st : EvaluatorState Cloud MapT) (req : EvaluationRequest) :
    Option (EvaluatorState Cloud MapT) × List Effect :=
  if req.evaluate || req.compute_coloring then
    if req.ground_truth_pointcloud_file ≠ "" then
      match o.loadPLY req.ground_truth_pointcloud_file with
      | some c =>
          (some { st with gt_ptcloud := some c },
           [Effect.loadGT req.ground_truth_pointcloud_file])
      | none =>
          (none, [Effect.loadGT req.ground_truth_pointcloud_file])
    else
      match st.gt_ptcloud with
      | some _ => (some st, [])
      | none => (none, [])
  else (some st, [])

/-- The map loading stage (map_evaluator.cpp:64-87): entered when any of
`visualize`, `evaluate`, `compute_coloring` is requested; mirrors the
structure of `gtStage`. -/
def mapStage {Cloud MapT : Type} (o : EvalOracles Cloud MapT)
    (st : EvaluatorState Cloud MapT) (req : EvaluationRequest) :
    Option (EvaluatorState Cloud MapT) × List Effect :=
  if req.visualize || req.evaluate || req.compute_coloring then
    if req.map_file ≠ "" then
      match o.loadMap req.map_file with
      | some m => (some { st with submaps := some m }, [Effect.loadMap req.map_file])
      | none => (none, [Effect.loadMap req.map_file])
    else
      match st.submaps with
      | some _ => (some st, [])
      | none => (none, [])
  else (some st, [])

/-- The computation stages after loading (map_evaluator.cpp:89-118):
open the CSV sink and compute the reconstruction error when `evaluate`,
compute (and persist) the coloring when `compute_coloring`, publish when
`visualize`. -/
def computeStages {Cloud MapT : Type} (o : EvalOracles Cloud MapT)
    (req : EvaluationRequest) : Bool × List Effect :=
  let evalEffects :=
    if req.evaluate then
      if o.openOutput then (true, [Effect.openOutput, Effect.writeCSV])
      else (false, [Effect.openOutput])
    else (true, [])
  if evalEffects.1 then
    let colorEffects :=
      if req.compute_coloring then [Effect.coloring, Effect.saveMap] else []
    let visEffects := if req.visualize then [Effect.visualize] else []
    (true, evalEffects.2 ++ colorEffects ++ visEffects)
  else (false, evalEffects.2)

/-- `MapEvaluator::evaluate`: validation, the two loading stages, then the
computations.  Returns the success flag and the effects performed. -/
def evaluateRun {Cloud MapT : Type} (o : EvalOracles Cloud MapT)
    (st : EvaluatorState Cloud MapT) (req : EvaluationRequest) :
    Bool × List Effect :=
  if requestIsValid req then
    match gtStage o st req with
    | (some st1, effs1) =>
        match mapStage o st1 req with
        | (some _, effs2) =>
            let (ok, effs3) := computeStages o req
            (ok, effs1 ++ effs2 ++ effs3)
        | (none, effs2) => (false, effs1 ++ effs2)
    | (none, effs1) => (false, effs1)
  else (false, [])

/-! ## Error coloring (`visualizeReconstructionError`, lines 210-324)

Per voxel: skip when the stored distance exceeds the truncation distance in
magnitude; grey out when out of bounds, when the neighbour search is empty
or when no interpolation succeeds; otherwise colour by the average error.
Channel values are the exact rationals handed to the `voxblox::Color`
constructor. -/

/-- A TSDF voxel: signed distance, accumulated weight, colour (r,g,b). -/
structure TsdfVoxel where
  distance : ℚ
  weight : ℚ
  color : ℚ × ℚ × ℚ
  deriving Repr, DecidableEq

/-- The neutral grey `Color(128, 128, 128)` used for unknown voxels. -/
def greyColor : ℚ × ℚ × ℚ := (128, 128, 128)

/-- `frac = min(total_error / counted_voxels, maximum_distance) /
maximum_distance` (map_evaluator.cpp:302-304). -/
def errorFrac (total_error : ℚ) (counted_voxels : ℕ) (maxd : ℚ) : ℚ :=
  min (total_error / (counted_voxels : ℚ)) maxd / maxd

/-- The red/green gradient of map_evaluator.cpp:305-310:
`r = min((frac − 0.5)·2 + 1, 1)·255`, `g = (1 − frac)·2·255` overridden by
`190 + 130·frac` when `frac ≤ 0.5`, blue `0`. -/
def errorColor (total_error : ℚ) (counted_voxels : ℕ) (maxd : ℚ) :
    ℚ × ℚ × ℚ :=
  let frac := errorFrac total_error counted_voxels maxd
  let r := min ((frac - 1/2) * 2 + 1) 1 * 255
  let g0 := (1 - frac) * 2 * 255
  let g := if frac ≤ 1/2 then 190 + 130 * frac else g0
  (r, g, 0)

/-- The error-accumulation loop over the neighbour-search results
(map_evaluator.cpp:284-297): result `i` is skipped when `i ≠ 0` and its
squared distance exceeds `voxel_size²`; kept results are interpolated
(`interp`, modelling `Interpolator::getDistance` with trilinear
interpolation) and contribute `|distance|` and a count. -/
def accumulateError {P : Type} (interp : P → Option ℚ) (voxel_size_sqr : ℚ)
    (results : List (P × ℚ)) : ℚ × ℕ :=
  (results.enum).foldl
    (fun acc ir =>
      if ir.1 ≠ 0 ∧ ir.2.2 > voxel_size_sqr then acc
      else
        match interp ir.2.1 with
        | some d => (acc.1 + |d|, acc.2 + 1)
        | none => acc)
    (0, 0)

/-- Processing of a single voxel in `visualizeReconstructionError`
(map_evaluator.cpp:256-311).  `trunc` is the submap's truncation distance,
`center` the voxel's world-space centre, `knn` the neighbour-search result
(ground-truth point, squared distance to `center`), already capped at 100
entries by the caller. -/
def processVoxel {P : Type} (bounds : P → Bool) (interp : P → Option ℚ)
    (knn : List (P × ℚ)) (trunc voxel_size_sqr maxd : ℚ) (center : P)
    (v : TsdfVoxel) : TsdfVoxel :=
  if v.distance > trunc ∨ v.distance < -trunc then v
  else if ¬ bounds center then { v with color := greyColor }
  else if knn.length = 0 then { v with color := greyColor }
  else
    let (total_error, counted_voxels) := accumulateError interp voxel_size_sqr knn
    if counted_voxels = 0 then { v with color := greyColor }
    else { v with color := errorColor total_error counted_voxels maxd }

/-! ## Instance-routed integration (`NaiveIntegrator::processPointcloud`)

First phase (naive_integrator.cpp:24-40): a left-to-right pass segments the
`(id, point, color)` triples into per-id partial clouds, using
`std::find` over the already-seen ids (the index equals the list length
when the id is new).  Second phase (lines 42-59): each group is integrated
into the submap with its id, skipping (with a warning) groups whose id is
absent from the collection. -/

/-- The three parallel vectors `id_v`, `cloud_v`, `color_v` built by the
segmentation pass. -/
structure SegState (α β : Type) where
  ids : List ℤ
  clouds : List (List α)
  colors : List (List β)
  deriving Repr, DecidableEq

/-- One iteration of the segmentation loop (naive_integrator.cpp:29-40):
`index = std::find(id_v, ids[i]) − begin` (which is `id_v.size()` when the
id is new, in which case a fresh empty group is appended), then the point
and colour are pushed onto the group at `index`. -/
def segStep {α β : Type} (s : SegState α β) (x : ℤ × α × β) : SegState α β :=
  let idx := s.ids.findIdx (· = x.1)
  let s1 : SegState α β :=
    if idx = s.ids.length then
      ⟨s.ids ++ [x.1], s.clouds ++ [[]], s.colors ++ [[]]⟩
    else s
  ⟨s1.ids,
   s1.clouds.set idx ((s1.clouds.getD idx []) ++ [x.2.1]),
   s1.colors.set idx ((s1.colors.getD idx []) ++ [x.2.2])⟩

/-- The frame as the list of `(ids[i], pointcloud[i], colors[i])` triples
(the `CHECK_EQ`s of naive_integrator.cpp:21-22 make the three vectors
equally long). -/
def zipFrame {α β : Type} : List α → List β → List ℤ → List (ℤ × α × β)
  | p :: ps, c :: cs, i :: is => (i, p, c) :: zipFrame ps cs is
  | _, _, _ => []

/-- The whole segmentation pass of `processPointcloud`. -/
def segmentFrame {α β : Type} (pointcloud : List α) (colors : List β)
    (ids : List ℤ) : SegState α β :=
  (zipFrame pointcloud colors ids).foldl segStep ⟨[], [], []⟩

/-- Specification-side definition (`first-seen order of ids`, spec §4.1
step 1): the distinct ids of the input in order of first occurrence. -/
def specIds (ids : List ℤ) : List ℤ :=
  ids.foldl (fun acc i => if i ∈ acc then acc else acc ++ [i]) []

/-- Loop invariant of the segmentation pass, after the prefix `proc` of the
frame has been processed: the seen ids are the distinct processed ids in
first-seen order, the three vectors are parallel, group sizes sum to the
number of processed triples, and each group holds exactly the processed
points/colours bearing its id, in input order. -/
def SegInv {α β : Type} (s : SegState α β) (proc : List (ℤ × α × β)) : Prop :=
  s.ids = specIds (proc.map (fun x => x.1)) ∧
  s.clouds.length = s.ids.length ∧
  s.colors.length = s.ids.length ∧
  (s.clouds.map List.length).sum = proc.length ∧
  (s.colors.map List.length).sum = proc.length ∧
  (∀ j, j < s.ids.length →
    s.clouds.getD j [] =
      (proc.filter (fun x => x.1 = s.ids.getD j 0)).map (fun x => x.2.1)) ∧
  (∀ j, j < s.ids.length →
    s.colors.getD j [] =
      (proc.filter (fun x => x.1 = s.ids.getD j 0)).map (fun x => x.2.2))

/-- A submap collection: association list from instance id to the
submap's TSDF grid (ids are unique; `G` abstracts the grid). -/
structure SubmapCollection (G : Type) where
  submaps : List (ℤ × G)

/-- `SubmapCollection::submapIdExists`. -/
def submapIdExists {G : Type} (c : SubmapCollection G) (id : ℤ) : Bool :=
  c.submaps.any (fun e => e.1 = id)

/-- Grid lookup by id (`getSubmap(id).getTsdfLayerPtr()`), `none` when the
id is absent. -/
def lookupGrid {G : Type} (c : SubmapCollection G) (id : ℤ) : Option G :=
  (c.submaps.find? (fun e => e.1 = id)).map (·.2)

/-- One iteration of the integration loop (naive_integrator.cpp:43-59):
a group with an id absent from the collection is skipped and a warning is
recorded; otherwise the integration backend
(`tsdf_integrator_->integratePointCloud(T_M_C, cloud_v[i], color_v[i])`,
abstracted as `backend`) updates that submap's grid in place. -/
def integrateStep {G Pose α β : Type}
    (backend : Pose → G → List α → List β → G) (pose : Pose)
    (acc : SubmapCollection G × List ℤ) (g : ℤ × List α × List β) :
    SubmapCollection G × List ℤ :=
  if submapIdExists acc.1 g.1 then
    (⟨acc.1.submaps.map (fun e =>
        if e.1 = g.1 then (e.1, backend pose e.2 g.2.1 g.2.2) else e)⟩,
     acc.2)
  else (acc.1, acc.2 ++ [g.1])

/-- The integration loop over all groups; returns the updated collection
and the ids warned about (one `LOG(WARNING)` per skipped group). -/
def integrateGroups {G Pose α β : Type}
    (backend : Pose → G → List α → List β → G) (pose : Pose)
    (c : SubmapCollection G) (groups : List (ℤ × List α × List β)) :
    SubmapCollection G × List ℤ :=
  groups.foldl (integrateStep backend pose) (c, [])

/-! ## Theorems -/

/-- Folding `errorStep` adds one to `unknown + |samples|` per in-bounds
point, and the increase of `truncated` never exceeds the increase of
`|samples|`. -/
theorem errorPass_fold_aux {P : Type} (bounds : P → Bool)
    (getDist : P → Option ℚ) (maxd : ℚ) :
    ∀ (cloud : List P) (acc : ErrorAcc),
      ((cloud.foldl (errorStep bounds getDist maxd) acc).unknown +
        (cloud.foldl (errorStep bounds getDist maxd) acc).samples.length =
        acc.unknown + acc.samples.length + inBoundsCount bounds cloud) ∧
      ((cloud.foldl (errorStep bounds getDist maxd) acc).truncated +
        acc.samples.length ≤
        acc.truncated +
        (cloud.foldl (errorStep bounds getDist maxd) acc).samples.length) := by
  intro cloud
  induction cloud with
  | nil => intro acc; simp [inBoundsCount]
  | cons p rest ih =>
      intro acc
      have hstep₁ :
          (errorStep bounds getDist maxd acc p).unknown +
            (errorStep bounds getDist maxd acc p).samples.length =
            acc.unknown + acc.samples.length +
              (if bounds p then 1 else 0) := by
        unfold errorStep
        by_cases hb : bounds p
        · simp only [hb, if_true]
          cases hd : getDist p with
          | some d => simp; omega
          | none => simp; omega
        · simp [hb]
      have hstep₂ :
          (errorStep bounds getDist maxd acc p).truncated +
            acc.samples.length ≤
            acc.truncated +
              (errorStep bounds getDist maxd acc p).samples.length := by
        unfold errorStep
        by_cases hb : bounds p
        · simp only [hb, if_true]
          cases hd : getDist p with
          | some d =>
              by_cases ht : |d| > maxd
              · simp [ht]; omega
              · simp [ht]
          | none => simp
        · simp [hb]
      have hin : inBoundsCount bounds (p :: rest) =
          (if bounds p then 1 else 0) + inBoundsCount bounds rest := by
        unfold inBoundsCount
        by_cases hb : bounds p <;> simp [hb, Nat.add_comm]
      obtain ⟨ih₁, ih₂⟩ := ih (errorStep bounds getDist maxd acc p)
      constructor
      · simpa [List.foldl_cons, hin, hstep₁] using by omega
      · simp only [List.foldl_cons] at ih₂ ⊢
        omega

/-- C1 (counterexample): one in-bounds ground-truth point whose known
distance `1` exceeds `maximum_distance = 1/2` yields `unknown = 0`,
`truncated = 1` and one error sample, so
`unknown + truncated + |samples| = 2 ≠ 1 = n_in_bounds`: the claimed
identity fails because a truncated point is counted both in
`truncated_points` and in the sample set. -/
theorem C1_counts_counterexample :
    (errorPass (fun _ : Unit => true) (fun _ => some 1) (1/2) [()]).unknown +
      (errorPass (fun _ : Unit => true) (fun _ => some 1) (1/2) [()]).truncated +
      (errorPass (fun _ : Unit => true) (fun _ => some 1) (1/2) [()]).samples.length ≠
      inBoundsCount (fun _ : Unit => true) [()] := by
  norm_num [errorPass, errorStep, inBoundsCount]

/-- C1 (amended): for a ground-truth set of `n` points the counters satisfy
`unknown_points + |error samples| = n_in_bounds ≤ n`, and
`truncated_points ≤ |error samples|` (each truncated point also contributes
an error sample). -/
theorem C1_error_counts_amended {P : Type} (bounds : P → Bool)
    (getDist : P → Option ℚ) (maxd : ℚ) (cloud : List P) :
    (errorPass bounds getDist maxd cloud).unknown +
      (errorPass bounds getDist maxd cloud).samples.length =
      inBoundsCount bounds cloud ∧
    (errorPass bounds getDist maxd cloud).truncated ≤
      (errorPass bounds getDist maxd cloud).samples.length ∧
    inBoundsCount bounds cloud ≤ cloud.length := by
  obtain ⟨h₁, h₂⟩ := errorPass_fold_aux bounds getDist maxd cloud ⟨0, 0, []⟩
  refine ⟨by simpa [errorPass] using h₁, by simpa [errorPass] using h₂, ?_⟩
  exact List.length_filter_le _ _

/-- C2 (confirmed): for an in-bounds point with a known distance `d`, if
`|d| > maximum_distance` the loop body increments `truncated_points` by one
and appends exactly `maximum_distance` (the clamped value, which then
contributes `maximum_distance` to mean and RMSE) to the sample set; if
`|d| = maximum_distance` nothing is truncated and `maximum_distance` itself
is appended unclamped. -/
theorem C2_truncation_clamps {P : Type} (bounds : P → Bool)
    (getDist : P → Option ℚ) (maxd : ℚ) (acc : ErrorAcc) (p : P) (d : ℚ)
    (hb : bounds p = true) (hd : getDist p = some d) (hm : 0 < maxd) :
    (|d| > maxd →
      errorStep bounds getDist maxd acc p =
        { acc with truncated := acc.truncated + 1,
                   samples := acc.samples ++ [maxd] }) ∧
    (|d| = maxd →
      errorStep bounds getDist maxd acc p =
        { acc with samples := acc.samples ++ [maxd] }) := by
  constructor
  · intro ht
    simp only [errorStep, hb, if_true, hd, ht]
    simp [abs_of_pos hm]
  · intro he
    have ht : ¬ (|d| > maxd) := by rw [he]; exact lt_irrefl maxd
    simp [errorStep, hb, hd, ht, he]

/-- C2 witness: a concrete in-bounds point with known distance `1` and
`maximum_distance = 1/2` is clamped to `1/2` and counted as truncated. -/
theorem C2_truncation_clamps_witness :
    errorStep (fun _ : Unit => true) (fun _ => some 1) (1/2) ⟨0, 0, []⟩ () =
      ⟨0, 1, [1/2]⟩ := by
  have h := (C2_truncation_clamps (fun _ : Unit => true) (fun _ => some 1)
    (1/2) ⟨0, 0, []⟩ () 1 rfl rfl (by norm_num)).1 (by norm_num)
  simpa using h

/-- Closed form of the first report loop: the accumulator pair is the sum
of the samples and the sum of their squares. -/
theorem sumAndSumSq_eq (xs : List ℚ) :
    sumAndSumSq xs = (xs.sum, (xs.map (fun v => v * v)).sum) := by
  suffices h : ∀ (a b : ℚ),
      xs.foldl (fun a v => (a.1 + v, a.2 + v * v)) (a, b) =
        (a + xs.sum, b + (xs.map (fun v => v * v)).sum) by
    simpa [sumAndSumSq] using h 0 0
  induction xs with
  | nil => intro a b; simp
  | cons x rest ih =>
      intro a b
      simp only [List.foldl_cons, List.sum_cons, List.map_cons, ih]
      simp [add_assoc]

/-- C5 (counterexample): with the two samples `0` and `2` the mean is `1`
and the reported standard deviation is the raw accumulated sum
`(0−1)² + (2−1)² = 2`, not `0` as the claim states for `n < 3`. -/
theorem C5_stddev_counterexample :
    reportedStddevIs [0, 2] 2 ∧ (2 : ℝ) ≠ 0 := by
  constructor
  · simp only [reportedStddevIs]
    norm_num [stddevSum, meanOut, sumAndSumSq]
  · norm_num

/-- C5 (amended): the reported `mean` is `Σ samples / n` (the raw
accumulated sum `0` when `n = 0`), the reported `rmse` is
`sqrt(Σ samples² / n)` for `n ≥ 1` and `0` for `n = 0`, and the reported
`stddev` is `sqrt(Σ(v − mean)² / (n − 1))` when `n ≥ 3` but equals the
*unnormalized* sum `Σ(v − mean)²` when `n < 3` (which is `0` for `n ≤ 1`
but in general nonzero for `n = 2`). -/
theorem C5_statistics_amended (xs : List ℚ) (r s : ℝ)
    (hr : reportedRmseIs xs r) (hs : reportedStddevIs xs s) :
    (meanOut xs =
      if xs.length = 0 then 0 else xs.sum / (xs.length : ℚ)) ∧
    (xs.length = 0 → r = 0) ∧
    (0 < xs.length →
      r = Real.sqrt ((((xs.map (fun v => v * v)).sum : ℚ) : ℝ) / (xs.length : ℝ))) ∧
    (2 < xs.length →
      s = Real.sqrt ((stddevSum xs : ℝ) / ((xs.length : ℝ) - 1))) ∧
    (xs.length ≤ 2 → s = (stddevSum xs : ℝ)) ∧
    (stddevSum xs = (xs.map (fun v => (v - meanOut xs) ^ 2)).sum) := by
  have hmean : meanOut xs =
      if xs.length = 0 then 0 else xs.sum / (xs.length : ℚ) := by
    by_cases hne : xs.isEmpty
    · have : xs = [] := List.isEmpty_iff.mp hne
      subst this
      simp [meanOut, sumAndSumSq]
    · have hlen : xs.length ≠ 0 := by
        simpa [List.isEmpty_iff, List.length_eq_zero] using hne
      simp [meanOut, hne, sumAndSumSq_eq, hlen]
  refine ⟨hmean, ?_, ?_, ?_, ?_, ?_⟩
  · intro h0
    have he : xs.isEmpty := by simpa [List.isEmpty_iff, List.length_eq_zero] using h0
    simpa [reportedRmseIs, he] using hr
  · intro hpos
    have he : ¬ xs.isEmpty := by
      simp only [List.isEmpty_iff, List.length_eq_zero] at *
      intro h; subst h; simp at hpos
    rw [reportedRmseIs, if_neg (by simpa using he)] at hr
    obtain ⟨hr0, hr2⟩ := hr
    have hsq : Real.sqrt ((rmseArg xs : ℝ)) = r := by
      rw [← hr2]; exact Real.sqrt_sq hr0
    rw [← hsq]
    congr 1
    have harg : rmseArg xs =
        (xs.map (fun v => v * v)).sum / (xs.length : ℚ) := by
      simp [rmseArg, sumAndSumSq_eq]
    rw [harg]
    push_cast
    ring
  · intro h3
    rw [reportedStddevIs, if_pos h3] at hs
    obtain ⟨hs0, hs2⟩ := hs
    have hsq : Real.sqrt (((stddevSum xs / ((xs.length : ℚ) - 1)) : ℝ)) = s := by
      rw [← hs2]; exact Real.sqrt_sq hs0
    rw [← hsq]
    push_cast
    ring_nf
  · intro h2
    have : ¬ 2 < xs.length := by omega
    rw [reportedStddevIs, if_neg this] at hs
    exact hs
  · suffices h : ∀ (a : ℚ) (l : List ℚ),
        l.foldl (fun a v => a + (v - meanOut xs) ^ 2) a =
          a + (l.map (fun v => (v - meanOut xs) ^ 2)).sum by
      simpa [stddevSum] using h 0 xs
    intro a l
    induction l generalizing a with
    | nil => simp
    | cons y rest ih =>
        simp only [List.foldl_cons, List.map_cons, List.sum_cons, ih]
        ring

/-- C5 witness: at the sample set `[1, 1, 1]` with reported values
`rmse = 1`, `stddev = 0`, the theorem's hypotheses hold and it yields the
closed-form mean. -/
theorem C5_statistics_amended_witness :
    meanOut [1, 1, 1] =
      if ([1, 1, 1] : List ℚ).length = 0 then 0
      else ([1, 1, 1] : List ℚ).sum / (([1, 1, 1] : List ℚ).length : ℚ) := by
  have h := C5_statistics_amended [1, 1, 1] 1 0
    (by norm_num [reportedRmseIs, rmseArg, sumAndSumSq])
    (by norm_num [reportedStddevIs, stddevSum, meanOut, sumAndSumSq])
  exact h.1

/-- Attaching the progress display to the loop never changes the
statistics accumulator. -/
theorem errorPassWithProgress_fst_aux {P : Type} (bounds : P → Bool)
    (getDist : P → Option ℚ) (maxd : ℚ) (n : ℕ) :
    ∀ (cloud : List P) (acc : ErrorAcc) (count : ℕ)
      (displays : List (Option ℚ)),
      (cloud.foldl (errorStepWithProgress bounds getDist maxd n)
        (acc, count, displays)).1 =
        cloud.foldl (errorStep bounds getDist maxd) acc := by
  intro cloud
  induction cloud with
  | nil => intro acc count displays; rfl
  | cons p rest ih =>
      intro acc count displays
      by_cases hb : bounds p
      · simp only [List.foldl_cons, errorStepWithProgress, hb, if_true]
        exact ih _ _ _
      · simp only [List.foldl_cons, errorStepWithProgress, hb, if_false,
          Bool.false_eq_true]
        rw [ih]
        congr 1
        simp [errorStep, hb]

/-- C7 (code bug): the progress display indeed has no effect on the
computed statistics (first conjunct, for every cloud), but it is *not*
well-defined for all set sizes: already for a single in-bounds ground-truth
point the code computes `interval = 1 / 100 = 0` and then executes
`count % interval` with divisor `0` — undefined behaviour in C++ (the
remaining conjuncts exhibit the zero divisor at that failing input). -/
theorem C7_progress_reporting :
    (∀ (P : Type) (bounds : P → Bool) (getDist : P → Option ℚ) (maxd : ℚ)
      (cloud : List P),
      (errorPassWithProgress bounds getDist maxd cloud).1 =
        errorPass bounds getDist maxd cloud) ∧
    progressInterval (List.length [()]) = 0 ∧
    progressModuloDivisors (fun _ : Unit => true) [()] = [0] ∧
    (errorPassWithProgress (fun _ : Unit => true) (fun _ => some 0) 1
      [()]).2.2 = [none] := by
  refine ⟨?_, by decide, by decide, ?_⟩
  · intro P bounds getDist maxd cloud
    exact errorPassWithProgress_fst_aux bounds getDist maxd cloud.length
      cloud ⟨0, 0, []⟩ 0 []
  · norm_num [errorPassWithProgress, errorStepWithProgress, errorStep,
      progressInterval]

/-- C6 (confirmed): a request with `maximum_distance ≤ 0` fails the
`checkParamGT` validation, so `evaluate` returns `false` having performed
no effect at all — in particular no ground-truth load, no map load and no
output sink is opened. -/
theorem C6_validation_before_io {Cloud MapT : Type}
    (o : EvalOracles Cloud MapT) (st : EvaluatorState Cloud MapT)
    (req : EvaluationRequest) (h : req.maximum_distance ≤ 0) :
    evaluateRun o st req = (false, []) := by
  have hv : requestIsValid req = false := by
    simp [requestIsValid]
    exact h
  simp [evaluateRun, hv]

/-- C6 witness: the concrete request of spec Scenario C
(`maximum_distance = -1`, everything requested) returns failure with no
effects, against oracles that would succeed. -/
theorem C6_validation_before_io_witness :
    evaluateRun
      (⟨fun _ => some (), fun _ => some (), true⟩ : EvalOracles Unit Unit)
      ⟨none, none⟩
      ⟨"map.panmap", "gt.ply", -1, true, true, true⟩ = (false, []) :=
  C6_validation_before_io
    (⟨fun _ => some (), fun _ => some (), true⟩ : EvalOracles Unit Unit)
    ⟨none, none⟩
    ⟨"map.panmap", "gt.ply", -1, true, true, true⟩ (by norm_num)

/-- C10 (confirmed): with an empty `ground_truth_pointcloud_file`, the
ground-truth stage reuses whatever cloud is already held: when a stale
cloud `c` is loaded from a previous call the stage succeeds without any
load effect and keeps `c`; only when no cloud was ever loaded does the
stage abort the run. -/
theorem C10_stale_ground_truth_reuse {Cloud MapT : Type}
    (o : EvalOracles Cloud MapT) (st : EvaluatorState Cloud MapT)
    (req : EvaluationRequest)
    (hpath : req.ground_truth_pointcloud_file = "")
    (hneed : req.evaluate = true ∨ req.compute_coloring = true) :
    (∀ c : Cloud, st.gt_ptcloud = some c →
      gtStage o st req = (some st, []) ∧ st.gt_ptcloud = some c) ∧
    (st.gt_ptcloud = none → gtStage o st req = (none, [])) := by
  have hb : (req.evaluate || req.compute_coloring) = true := by
    rcases hneed with h | h <;> simp [h]
  constructor
  · intro c hc
    refine ⟨?_, hc⟩
    simp [gtStage, hb, hpath, hc]
  · intro hc
    simp [gtStage, hb, hpath, hc]

/-- C10 witness: a stale cloud (`7`) held from a previous call is reused by
a request with an empty ground-truth path, and the same request aborts when
no cloud is held. -/
theorem C10_stale_ground_truth_reuse_witness :
    gtStage (⟨fun _ => none, fun _ => some (), true⟩ : EvalOracles ℕ Unit)
      ⟨some 7, none⟩
      ⟨"map.panmap", "", 1, true, false, false⟩ =
      (some ⟨some 7, none⟩, []) := by
  have h := (C10_stale_ground_truth_reuse
    (⟨fun _ => none, fun _ => some (), true⟩ : EvalOracles ℕ Unit)
    ⟨some 7, none⟩
    ⟨"map.panmap", "", 1, true, false, false⟩ rfl (Or.inl rfl)).1 7 rfl
  exact h.1

/-- C8 (confirmed): for a recoloured voxel (at least one successful
interpolation, non-negative accumulated error, positive
`maximum_distance`), `frac = min(avgError, maximum_distance) /
maximum_distance` lies in `[0, 1]`, the red channel is
`min((frac − 0.5)·2 + 1, 1)·255`, the green channel is `190 + 130·frac`
when `frac ≤ 0.5` and `(1 − frac)·2·255` otherwise, and the blue channel
is `0`. -/
theorem C8_error_coloring (total_error : ℚ) (counted_voxels : ℕ) (maxd : ℚ)
    (_hcnt : 0 < counted_voxels) (herr : 0 ≤ total_error) (hm : 0 < maxd) :
    (0 ≤ errorFrac total_error counted_voxels maxd ∧
      errorFrac total_error counted_voxels maxd ≤ 1) ∧
    (errorColor total_error counted_voxels maxd).1 =
      min ((errorFrac total_error counted_voxels maxd - 1/2) * 2 + 1) 1 * 255 ∧
    (errorColor total_error counted_voxels maxd).2.1 =
      (if errorFrac total_error counted_voxels maxd ≤ 1/2 then
        190 + 130 * errorFrac total_error counted_voxels maxd
      else (1 - errorFrac total_error counted_voxels maxd) * 2 * 255) ∧
    (errorColor total_error counted_voxels maxd).2.2 = 0 := by
  refine ⟨⟨?_, ?_⟩, rfl, rfl, rfl⟩
  · apply div_nonneg _ hm.le
    apply le_min _ hm.le
    apply div_nonneg herr
    exact_mod_cast Nat.zero_le counted_voxels
  · rw [errorFrac, div_le_one hm]
    exact min_le_right _ _

/-- C8 witness: `total_error = 1` over `2` counted interpolations with
`maximum_distance = 1` gives `frac = 1/2 ∈ [0,1]` and the stated
channels. -/
theorem C8_error_coloring_witness :
    (0 ≤ errorFrac 1 2 1 ∧ errorFrac 1 2 1 ≤ 1) ∧
    (errorColor 1 2 1).1 = min ((errorFrac 1 2 1 - 1/2) * 2 + 1) 1 * 255 ∧
    (errorColor 1 2 1).2.1 =
      (if errorFrac 1 2 1 ≤ 1/2 then 190 + 130 * errorFrac 1 2 1
      else (1 - errorFrac 1 2 1) * 2 * 255) ∧
    (errorColor 1 2 1).2.2 = 0 :=
  C8_error_coloring 1 2 1 (by norm_num) (by norm_num) (by norm_num)

/-- C9 (confirmed): a voxel whose stored signed distance exceeds the
submap's truncation distance in magnitude takes the first `continue` and is
returned exactly as stored — colour and all other fields untouched —
whatever the bounds policy, neighbour search and interpolator report. -/
theorem C9_truncated_voxels_skipped {P : Type} (bounds : P → Bool)
    (interp : P → Option ℚ) (knn : List (P × ℚ))
    (trunc voxel_size_sqr maxd : ℚ) (center : P) (v : TsdfVoxel)
    (h : trunc < |v.distance|) :
    processVoxel bounds interp knn trunc voxel_size_sqr maxd center v = v := by
  have hcond : v.distance > trunc ∨ v.distance < -trunc := by
    rcases lt_abs.mp h with h' | h'
    · exact Or.inl h'
    · exact Or.inr (by linarith)
  simp [processVoxel, hcond]

/-- C9 witness: a voxel with stored distance `2` against truncation
distance `1` is returned unchanged by the voxel pass. -/
theorem C9_truncated_voxels_skipped_witness :
    processVoxel (fun _ : Unit => true) (fun _ => some 0) [((), 0)] 1 1 1 ()
      ⟨2, 3, (4, 5, 6)⟩ = ⟨2, 3, (4, 5, 6)⟩ :=
  C9_truncated_voxels_skipped (fun _ : Unit => true) (fun _ => some 0)
    [((), 0)] 1 1 1 () ⟨2, 3, (4, 5, 6)⟩ (by norm_num)

/-- `getD` on the left part of an append. -/
theorem getD_append_left {γ : Type} (l₁ l₂ : List γ) (j : ℕ) (d : γ)
    (h : j < l₁.length) : (l₁ ++ l₂).getD j d = l₁.getD j d := by
  simp [List.getD_eq_getElem?_getD, List.getElem?_append_left h]

/-- `getD` at the appended element. -/
theorem getD_concat_length {γ : Type} (l : List γ) (a d : γ) :
    (l ++ [a]).getD l.length d = a := by
  simp [List.getD_eq_getElem?_getD, List.getElem?_concat_length]

/-- `getD` at the position just overwritten by `set`. -/
theorem getD_set_self {γ : Type} (l : List γ) (j : ℕ) (w d : γ)
    (h : j < l.length) : (l.set j w).getD j d = w := by
  simp [List.getD_eq_getElem?_getD, List.getElem?_set_self h]

/-- `getD` at a position other than the one `set` overwrote. -/
theorem getD_set_ne {γ : Type} (l : List γ) (i j : ℕ) (w d : γ)
    (h : i ≠ j) : (l.set i w).getD j d = l.getD j d := by
  simp [List.getD_eq_getElem?_getD, List.getElem?_set_ne h]

/-- Overwriting the appended element. -/
theorem set_concat_length {γ : Type} :
    ∀ (l : List γ) (a b : γ), (l ++ [a]).set l.length b = l ++ [b] := by
  intro l
  induction l with
  | nil => intro a b; rfl
  | cons x rest ih => intro a b; simp [List.set, ih]

/-- Appending one element to the group at index `j` grows the total size
by one. -/
theorem sum_map_length_set {γ : Type} :
    ∀ (gs : List (List γ)) (j : ℕ) (v : γ), j < gs.length →
      ((gs.set j (gs.getD j [] ++ [v])).map List.length).sum =
        (gs.map List.length).sum + 1 := by
  intro gs
  induction gs with
  | nil => intro j v h; simp at h
  | cons g rest ih =>
      intro j v h
      cases j with
      | zero => simp [List.set]; omega
      | succ j =>
          have hj : j < rest.length := by simpa using h
          have hgd : (g :: rest).getD (j + 1) [] = rest.getD j [] := by
            simp [List.getD_eq_getElem?_getD]
          rw [hgd]
          simp only [List.set_cons_succ, List.map_cons, List.sum_cons,
            ih j v hj]
          omega

/-- Membership after folding the first-seen accumulator. -/
theorem mem_specIds_foldl :
    ∀ (l : List ℤ) (acc : List ℤ) (a : ℤ),
      (a ∈ l.foldl (fun acc i => if i ∈ acc then acc else acc ++ [i]) acc ↔
        a ∈ acc ∨ a ∈ l) := by
  intro l
  induction l with
  | nil => intro acc a; simp
  | cons x xs ih =>
      intro acc a
      simp only [List.foldl_cons]
      rw [ih]
      by_cases hx : x ∈ acc
      · simp only [hx, if_true, List.mem_cons]
        constructor
        · tauto
        · rintro (h | rfl | h) <;> tauto
      · simp only [hx, if_false, List.mem_append, List.mem_cons,
          List.mem_singleton]
        tauto

/-- The first-seen accumulator preserves `Nodup`. -/
theorem nodup_specIds_foldl :
    ∀ (l : List ℤ) (acc : List ℤ), acc.Nodup →
      (l.foldl (fun acc i => if i ∈ acc then acc else acc ++ [i]) acc).Nodup := by
  intro l
  induction l with
  | nil => intro acc h; simpa using h
  | cons x xs ih =>
      intro acc h
      simp only [List.foldl_cons]
      by_cases hx : x ∈ acc
      · simpa [hx] using ih acc h
      · refine ih _ ?_
        rw [if_neg hx]
        refine List.Nodup.append h (List.nodup_singleton x) ?_
        intro a ha hax
        rw [List.mem_singleton] at hax
        exact hx (hax ▸ ha)

/-- The distinct first-seen ids contain no duplicates. -/
theorem specIds_nodup (l : List ℤ) : (specIds l).Nodup :=
  nodup_specIds_foldl l [] List.nodup_nil

/-- An id occurs among the first-seen ids iff it occurs in the input. -/
theorem mem_specIds (l : List ℤ) (a : ℤ) : a ∈ specIds l ↔ a ∈ l := by
  rw [specIds, mem_specIds_foldl]
  simp

/-- Processing one more id extends the first-seen list exactly when the id
is new. -/
theorem specIds_append_singleton (l : List ℤ) (x : ℤ) :
    specIds (l ++ [x]) =
      if x ∈ specIds l then specIds l else specIds l ++ [x] := by
  simp [specIds, List.foldl_append]

/-- One segmentation step preserves the loop invariant. -/
theorem segStep_inv {α β : Type} (s : SegState α β) (proc : List (ℤ × α × β))
    (x : ℤ × α × β) (h : SegInv s proc) : SegInv (segStep s x) (proc ++ [x]) := by
  obtain ⟨hids, hlc, hlcol, hsum, hsumc, hchar, hcharc⟩ := h
  have hnodup : s.ids.Nodup := hids ▸ specIds_nodup _
  have hmapfst : (proc ++ [x]).map (fun y => y.1) =
      proc.map (fun y => y.1) ++ [x.1] := by simp
  by_cases hmem : x.1 ∈ s.ids
  · -- the id was seen before: push onto the existing group
    have hlt : s.ids.findIdx (· = x.1) < s.ids.length :=
      List.findIdx_lt_length.mpr ⟨x.1, hmem, by simp⟩
    have hne : s.ids.findIdx (· = x.1) ≠ s.ids.length := Nat.ne_of_lt hlt
    have hgetidx : s.ids.getD (s.ids.findIdx (· = x.1)) 0 = x.1 := by
      have hp := @List.findIdx_getElem ℤ (· = x.1) s.ids hlt
      have hp' := of_decide_eq_true hp
      rw [List.getD_eq_getElem?_getD, List.getElem?_eq_getElem hlt]
      simpa using hp'
    have hstep : segStep s x =
        ⟨s.ids,
         s.clouds.set (s.ids.findIdx (· = x.1))
           ((s.clouds.getD (s.ids.findIdx (· = x.1)) []) ++ [x.2.1]),
         s.colors.set (s.ids.findIdx (· = x.1))
           ((s.colors.getD (s.ids.findIdx (· = x.1)) []) ++ [x.2.2])⟩ := by
      simp [segStep, hne]
    rw [hstep]
    have hltc : s.ids.findIdx (· = x.1) < s.clouds.length := by
      rw [hlc]; exact hlt
    have hltcol : s.ids.findIdx (· = x.1) < s.colors.length := by
      rw [hlcol]; exact hlt
    have hkey : ∀ j, j < s.ids.length → j ≠ s.ids.findIdx (· = x.1) →
        s.ids.getD j 0 ≠ x.1 := by
      intro j hj hjne heq
      apply hjne
      have h1 : s.ids.getD j 0 = s.ids[j] := by
        rw [List.getD_eq_getElem?_getD, List.getElem?_eq_getElem hj]
        rfl
      have h2 : s.ids.getD (s.ids.findIdx (· = x.1)) 0 =
          s.ids[s.ids.findIdx (· = x.1)] := by
        rw [List.getD_eq_getElem?_getD, List.getElem?_eq_getElem hlt]
        rfl
      have : s.ids[j] = s.ids[s.ids.findIdx (· = x.1)] := by
        rw [← h1, ← h2, heq, hgetidx]
      exact (List.Nodup.getElem_inj_iff hnodup).mp this
    refine ⟨?_, ?_, ?_, ?_, ?_, ?_, ?_⟩
    · rw [hmapfst, specIds_append_singleton, if_pos (hids ▸ hmem), ← hids]
    · simp [hlc]
    · simp [hlcol]
    · rw [sum_map_length_set s.clouds _ x.2.1 hltc, hsum]; simp
    · rw [sum_map_length_set s.colors _ x.2.2 hltcol, hsumc]; simp
    · intro j hj
      simp only at hj ⊢
      by_cases hje : j = s.ids.findIdx (· = x.1)
      · rw [hje, getD_set_self _ _ _ _ hltc, hchar _ hlt, hgetidx,
          List.filter_append, List.map_append]
        simp
      · rw [getD_set_ne _ _ _ _ _ (fun hh => hje hh.symm), hchar j hj,
          List.filter_append, List.map_append]
        have hfe : (([x] : List (ℤ × α × β)).filter
            (fun y => y.1 = s.ids.getD j 0)) = [] := by
          rw [List.filter_eq_nil_iff]
          intro y hy
          rw [List.mem_singleton] at hy
          subst hy
          simp only [decide_eq_true_eq]
          exact fun hx1 => (hkey j hj hje) hx1.symm
        rw [hfe]
        simp
    · intro j hj
      simp only at hj ⊢
      by_cases hje : j = s.ids.findIdx (· = x.1)
      · rw [hje, getD_set_self _ _ _ _ hltcol, hcharc _ hlt, hgetidx,
          List.filter_append, List.map_append]
        simp
      · rw [getD_set_ne _ _ _ _ _ (fun hh => hje hh.symm), hcharc j hj,
          List.filter_append, List.map_append]
        have hfe : (([x] : List (ℤ × α × β)).filter
            (fun y => y.1 = s.ids.getD j 0)) = [] := by
          rw [List.filter_eq_nil_iff]
          intro y hy
          rw [List.mem_singleton] at hy
          subst hy
          simp only [decide_eq_true_eq]
          exact fun hx1 => (hkey j hj hje) hx1.symm
        rw [hfe]
        simp
  · -- a new id: append a fresh group holding just this point
    have hidx : s.ids.findIdx (· = x.1) = s.ids.length := by
      apply List.findIdx_eq_length_of_false
      intro y hy
      simp only [decide_eq_false_iff_not]
      intro hyx
      exact hmem (hyx ▸ hy)
    have hprockey : ∀ y ∈ proc, y.1 ≠ x.1 := by
      intro y hy hyx
      apply hmem
      rw [hids, mem_specIds]
      exact hyx ▸ List.mem_map_of_mem (fun z => z.1) hy
    have hstep : segStep s x =
        ⟨s.ids ++ [x.1], s.clouds ++ [[x.2.1]], s.colors ++ [[x.2.2]]⟩ := by
      have hgd1 : (s.clouds ++ [[]]).getD s.ids.length [] =
          ([] : List α) := by
        rw [← hlc]
        exact getD_concat_length s.clouds [] []
      have hgd2 : (s.colors ++ [[]]).getD s.ids.length [] =
          ([] : List β) := by
        rw [← hlcol]
        exact getD_concat_length s.colors [] []
      have hs1 : (s.clouds ++ [[]]).set s.ids.length
          ([] ++ [x.2.1]) = s.clouds ++ [[x.2.1]] := by
        rw [← hlc]
        exact set_concat_length s.clouds [] [x.2.1]
      have hs2 : (s.colors ++ [[]]).set s.ids.length
          ([] ++ [x.2.2]) = s.colors ++ [[x.2.2]] := by
        rw [← hlcol]
        exact set_concat_length s.colors [] [x.2.2]
      simp only [segStep]
      rw [hidx, if_pos rfl]
      dsimp only
      rw [hgd1, hgd2, hs1, hs2]
    rw [hstep]
    refine ⟨?_, ?_, ?_, ?_, ?_, ?_, ?_⟩
    · rw [hmapfst, specIds_append_singleton, if_neg (hids ▸ hmem), ← hids]
    · simp [hlc]
    · simp [hlcol]
    · simp [hsum]
    · simp [hsumc]
    · intro j hj
      simp only [List.length_append, List.length_singleton] at hj
      by_cases hjl : j < s.ids.length
      · have hg : (s.clouds ++ [[x.2.1]]).getD j [] = s.clouds.getD j [] :=
          getD_append_left _ _ _ _ (hlc ▸ hjl)
        have hid : (s.ids ++ [x.1]).getD j 0 = s.ids.getD j 0 :=
          getD_append_left _ _ _ _ hjl
        rw [hg, hid, hchar j hjl, List.filter_append, List.map_append]
        have hidsj : s.ids.getD j 0 ∈ s.ids := by
          rw [List.getD_eq_getElem?_getD, List.getElem?_eq_getElem hjl,
            Option.getD_some]
          exact List.getElem_mem hjl
        have hfe : (([x] : List (ℤ × α × β)).filter
            (fun y => y.1 = s.ids.getD j 0)) = [] := by
          rw [List.filter_eq_nil_iff]
          intro y hy
          rw [List.mem_singleton] at hy
          subst hy
          simp only [decide_eq_true_eq]
          intro hx1
          exact hmem (by rw [hx1]; exact hidsj)
        rw [hfe]
        simp
      · have hj' : j = s.ids.length := by omega
        subst hj'
        have hg : (s.clouds ++ [[x.2.1]]).getD s.ids.length [] = [x.2.1] := by
          rw [← hlc]
          exact getD_concat_length s.clouds [x.2.1] []
        have hid : (s.ids ++ [x.1]).getD s.ids.length 0 = x.1 :=
          getD_concat_length s.ids x.1 0
        rw [hg, hid, List.filter_append]
        have hf : proc.filter (fun y => y.1 = x.1) = [] := by
          rw [List.filter_eq_nil_iff]
          intro y hy
          simp only [decide_eq_true_eq]
          exact hprockey y hy
        rw [hf]
        simp
    · intro j hj
      simp only [List.length_append, List.length_singleton] at hj
      by_cases hjl : j < s.ids.length
      · have hg : (s.colors ++ [[x.2.2]]).getD j [] = s.colors.getD j [] :=
          getD_append_left _ _ _ _ (hlcol ▸ hjl)
        have hid : (s.ids ++ [x.1]).getD j 0 = s.ids.getD j 0 :=
          getD_append_left _ _ _ _ hjl
        rw [hg, hid, hcharc j hjl, List.filter_append, List.map_append]
        have hidsj : s.ids.getD j 0 ∈ s.ids := by
          rw [List.getD_eq_getElem?_getD, List.getElem?_eq_getElem hjl,
            Option.getD_some]
          exact List.getElem_mem hjl
        have hfe : (([x] : List (ℤ × α × β)).filter
            (fun y => y.1 = s.ids.getD j 0)) = [] := by
          rw [List.filter_eq_nil_iff]
          intro y hy
          rw [List.mem_singleton] at hy
          subst hy
          simp only [decide_eq_true_eq]
          intro hx1
          exact hmem (by rw [hx1]; exact hidsj)
        rw [hfe]
        simp
      · have hj' : j = s.ids.length := by omega
        subst hj'
        have hg : (s.colors ++ [[x.2.2]]).getD s.ids.length [] = [x.2.2] := by
          rw [← hlcol]
          exact getD_concat_length s.colors [x.2.2] []
        have hid : (s.ids ++ [x.1]).getD s.ids.length 0 = x.1 :=
          getD_concat_length s.ids x.1 0
        rw [hg, hid, List.filter_append]
        have hf : proc.filter (fun y => y.1 = x.1) = [] := by
          rw [List.filter_eq_nil_iff]
          intro y hy
          simp only [decide_eq_true_eq]
          exact hprockey y hy
        rw [hf]
        simp

/-- Folding the segmentation step over the rest of the frame preserves the
loop invariant. -/
theorem segFold_inv {α β : Type} :
    ∀ (l : List (ℤ × α × β)) (s : SegState α β) (proc : List (ℤ × α × β)),
      SegInv s proc → SegInv (l.foldl segStep s) (proc ++ l) := by
  intro l
  induction l with
  | nil => intro s proc h; simpa using h
  | cons x xs ih =>
      intro s proc h
      have h' := segStep_inv s proc x h
      have := ih (segStep s x) (proc ++ [x]) h'
      simpa [List.append_assoc] using this

/-- The empty segmentation state satisfies the invariant for the empty
prefix. -/
theorem segInv_init {α β : Type} :
    SegInv (⟨[], [], []⟩ : SegState α β) [] := by
  refine ⟨by simp [specIds], rfl, rfl, rfl, rfl, ?_, ?_⟩ <;>
    (intro j hj; simp at hj)

/-- Projecting the ids out of the zipped frame recovers the id vector when
the three input vectors have equal length. -/
theorem zipFrame_map_fst {α β : Type} :
    ∀ (ids : List ℤ) (ps : List α) (cs : List β),
      ps.length = ids.length → cs.length = ids.length →
      (zipFrame ps cs ids).map (fun x => x.1) = ids := by
  intro ids
  induction ids with
  | nil =>
      intro ps cs hp hc
      have hps : ps = [] := List.length_eq_zero.mp (by simpa using hp)
      have hcs : cs = [] := List.length_eq_zero.mp (by simpa using hc)
      subst hps
      subst hcs
      rfl
  | cons i is ih =>
      intro ps cs hp hc
      cases ps with
      | nil => simp at hp
      | cons p ps' =>
          cases cs with
          | nil => simp at hc
          | cons c cs' =>
              simp only [zipFrame, List.map_cons, List.cons.injEq]
              exact ⟨by simp, ih ps' cs' (by simpa using hp) (by simpa using hc)⟩

/-- Length of the zipped frame. -/
theorem zipFrame_length {α β : Type} :
    ∀ (ids : List ℤ) (ps : List α) (cs : List β),
      ps.length = ids.length → cs.length = ids.length →
      (zipFrame ps cs ids).length = ids.length := by
  intro ids ps cs hp hc
  have := zipFrame_map_fst ids ps cs hp hc
  have hlen := congrArg List.length this
  simpa using hlen

/-- C3 (confirmed): for a frame of `n` points with equally long point,
colour and id vectors, the single-pass segmentation produces exactly one
group per distinct id (the group key vector is the duplicate-free list of
input ids in first-seen order), group sizes sum to `n` for points and
colours alike, and group `j` holds exactly the input points (resp.
colours) bearing its id, in input order (the in-order filter of the
frame). -/
theorem C3_grouping_correct {α β : Type} (pointcloud : List α)
    (colors : List β) (ids : List ℤ)
    (hp : pointcloud.length = ids.length)
    (hc : colors.length = ids.length) :
    (segmentFrame pointcloud colors ids).ids = specIds ids ∧
    (segmentFrame pointcloud colors ids).ids.Nodup ∧
    (∀ a, a ∈ (segmentFrame pointcloud colors ids).ids ↔ a ∈ ids) ∧
    (segmentFrame pointcloud colors ids).clouds.length =
      (segmentFrame pointcloud colors ids).ids.length ∧
    (segmentFrame pointcloud colors ids).colors.length =
      (segmentFrame pointcloud colors ids).ids.length ∧
    ((segmentFrame pointcloud colors ids).clouds.map List.length).sum =
      pointcloud.length ∧
    ((segmentFrame pointcloud colors ids).colors.map List.length).sum =
      colors.length ∧
    (∀ j, j < (segmentFrame pointcloud colors ids).ids.length →
      (segmentFrame pointcloud colors ids).clouds.getD j [] =
        ((zipFrame pointcloud colors ids).filter
          (fun x => x.1 = (segmentFrame pointcloud colors ids).ids.getD j 0)).map
          (fun x => x.2.1) ∧
      (segmentFrame pointcloud colors ids).colors.getD j [] =
        ((zipFrame pointcloud colors ids).filter
          (fun x => x.1 = (segmentFrame pointcloud colors ids).ids.getD j 0)).map
          (fun x => x.2.2)) := by
  have hinv : SegInv (segmentFrame pointcloud colors ids)
      (zipFrame pointcloud colors ids) := by
    have := segFold_inv (zipFrame pointcloud colors ids) ⟨[], [], []⟩ []
      segInv_init
    simpa [segmentFrame] using this
  obtain ⟨hids, hlc, hlcol, hsum, hsumc, hchar, hcharc⟩ := hinv
  have hfst : (zipFrame pointcloud colors ids).map (fun x => x.1) = ids :=
    zipFrame_map_fst ids pointcloud colors hp hc
  have hids' : (segmentFrame pointcloud colors ids).ids = specIds ids := by
    rw [hids, hfst]
  refine ⟨hids', hids' ▸ specIds_nodup ids, ?_, hlc, hlcol, ?_, ?_, ?_⟩
  · intro a
    rw [hids']
    exact mem_specIds ids a
  · rw [hsum, zipFrame_length ids pointcloud colors hp hc, hp]
  · rw [hsumc, zipFrame_length ids pointcloud colors hp hc, hc]
  · intro j hj
    exact ⟨hchar j hj, hcharc j hj⟩

/-- C3 witness: the frame with ids `[1, 2, 1]`, points `[10, 20, 30]` and
colours `[5, 6, 7]` is segmented into the groups `[[10, 30], [20]]` and
`[[5, 7], [6]]` keyed by `[1, 2]`. -/
theorem C3_grouping_correct_witness :
    (segmentFrame ([10, 20, 30] : List ℕ) ([5, 6, 7] : List ℕ)
      ([1, 2, 1] : List ℤ)).ids = specIds [1, 2, 1] ∧
    segmentFrame ([10, 20, 30] : List ℕ) ([5, 6, 7] : List ℕ)
      ([1, 2, 1] : List ℤ) =
      ⟨[1, 2], [[10, 30], [20]], [[5, 7], [6]]⟩ := by
  constructor
  · exact (C3_grouping_correct ([10, 20, 30] : List ℕ) ([5, 6, 7] : List ℕ)
      ([1, 2, 1] : List ℤ) rfl rfl).1
  · rfl

/-- `submapIdExists` only looks at the key list. -/
theorem submapIdExists_eq_keys {G : Type} (c : SubmapCollection G) (i : ℤ) :
    submapIdExists c i = (c.submaps.map (fun e => e.1)).any (fun k => k = i) := by
  rw [submapIdExists]
  induction c.submaps with
  | nil => rfl
  | cons e rest ih => simp [ih]

/-- A missing id looks up to `none`. -/
theorem lookupGrid_eq_none {G : Type} (c : SubmapCollection G) (i : ℤ)
    (h : submapIdExists c i = false) : lookupGrid c i = none := by
  have hf : c.submaps.find? (fun e => e.1 = i) = none := by
    rw [List.find?_eq_none]
    intro e he
    have := List.any_eq_false.mp h e he
    simpa using this
  rw [lookupGrid, hf]
  rfl

/-- Updating the grid bound to id `g.1` leaves every other id's lookup
unchanged. -/
theorem lookup_map_update {G Pose α β : Type}
    (backend : Pose → G → List α → List β → G) (pose : Pose)
    (g : ℤ × List α × List β) (k : ℤ) (hk : k ≠ g.1) :
    ∀ l : List (ℤ × G),
      ((l.map (fun e =>
          if e.1 = g.1 then (e.1, backend pose e.2 g.2.1 g.2.2) else e)).find?
        (fun e => e.1 = k)).map (fun e => e.2) =
      (l.find? (fun e => e.1 = k)).map (fun e => e.2) := by
  intro l
  induction l with
  | nil => rfl
  | cons e rest ih =>
      by_cases h1 : e.1 = g.1
      · have hpe : ¬ (e.1 = k) := by rw [h1]; exact fun h => hk h.symm
        simp only [List.map_cons]
        rw [if_pos h1]
        rw [List.find?_cons_of_neg _ (by simpa using hpe),
          List.find?_cons_of_neg _ (by simpa using hpe), ih]
      · simp only [List.map_cons]
        rw [if_neg h1]
        by_cases hpk : e.1 = k
        · rw [List.find?_cons_of_pos _ (by simpa using hpk),
            List.find?_cons_of_pos _ (by simpa using hpk)]
        · rw [List.find?_cons_of_neg _ (by simpa using hpk),
            List.find?_cons_of_neg _ (by simpa using hpk), ih]

/-- Folding the integration loop: key list preserved, warnings are exactly
the group ids missing from the collection, lookups of ids outside the
frame unchanged. -/
theorem integrateGroups_fold_aux {G Pose α β : Type}
    (backend : Pose → G → List α → List β → G) (pose : Pose) :
    ∀ (groups : List (ℤ × List α × List β)) (c : SubmapCollection G)
      (w : List ℤ),
      ((groups.foldl (integrateStep backend pose) (c, w)).1.submaps.map
        (fun e => e.1) = c.submaps.map (fun e => e.1)) ∧
      ((groups.foldl (integrateStep backend pose) (c, w)).2 =
        w ++ (groups.map (fun g => g.1)).filter
          (fun i => !(submapIdExists c i))) ∧
      (∀ k, k ∉ groups.map (fun g => g.1) →
        lookupGrid (groups.foldl (integrateStep backend pose) (c, w)).1 k =
          lookupGrid c k) := by
  intro groups
  induction groups with
  | nil => intro c w; simp
  | cons g rest ih =>
      intro c w
      simp only [List.foldl_cons, List.map_cons]
      by_cases he : submapIdExists c g.1
      · have hstep : integrateStep backend pose (c, w) g =
            (⟨c.submaps.map (fun e =>
              if e.1 = g.1 then (e.1, backend pose e.2 g.2.1 g.2.2) else e)⟩,
             w) := by
          simp [integrateStep, he]
        rw [hstep]
        obtain ⟨ih1, ih2, ih3⟩ := ih ⟨c.submaps.map (fun e =>
          if e.1 = g.1 then (e.1, backend pose e.2 g.2.1 g.2.2) else e)⟩ w
        have hkeys : (c.submaps.map (fun e =>
            if e.1 = g.1 then (e.1, backend pose e.2 g.2.1 g.2.2) else e)).map
            (fun e => e.1) = c.submaps.map (fun e => e.1) := by
          rw [List.map_map]
          apply List.map_congr_left
          intro e _
          by_cases h1 : e.1 = g.1 <;> simp [h1]
        have hex : ∀ i, submapIdExists (⟨c.submaps.map (fun e =>
            if e.1 = g.1 then (e.1, backend pose e.2 g.2.1 g.2.2) else e)⟩ :
            SubmapCollection G) i = submapIdExists c i := by
          intro i
          rw [submapIdExists_eq_keys, submapIdExists_eq_keys]
          exact congrArg (fun l => l.any (fun k => decide (k = i))) hkeys
        refine ⟨?_, ?_, ?_⟩
        · rw [ih1]
          exact hkeys
        · rw [ih2]
          have hfc : (rest.map (fun g => g.1)).filter
              (fun i => !(submapIdExists (⟨c.submaps.map (fun e =>
                if e.1 = g.1 then (e.1, backend pose e.2 g.2.1 g.2.2)
                else e)⟩ : SubmapCollection G) i)) =
              (rest.map (fun g => g.1)).filter
                (fun i => !(submapIdExists c i)) := by
            apply List.filter_congr
            intro i _
            rw [hex i]
          rw [hfc, List.filter_cons, he]
          simp
        · intro k hk
          rw [List.mem_cons] at hk
          push_neg at hk
          rw [ih3 k hk.2]
          rw [lookupGrid, lookupGrid]
          exact lookup_map_update backend pose g k hk.1 c.submaps
      · have hstep : integrateStep backend pose (c, w) g = (c, w ++ [g.1]) := by
          simp [integrateStep, he]
        rw [hstep]
        obtain ⟨ih1, ih2, ih3⟩ := ih c (w ++ [g.1])
        refine ⟨ih1, ?_, ?_⟩
        · rw [ih2, List.filter_cons]
          simp [he]
        · intro k hk
          rw [List.mem_cons] at hk
          push_neg at hk
          exact ih3 k hk.2

/-- C4 (confirmed): integrating a frame's groups never changes the
collection's key list (no submap is ever inserted), emits exactly the
missing group ids as warnings — with distinct group ids (as the
segmentation produces) exactly one warning per missing id per frame — and
for a missing id mutates nothing: its lookup stays `none`, and any id not
named by a group keeps its exact grid.  The model is total, so no
exception is raised. -/
theorem C4_missing_id_routing {G Pose α β : Type}
    (backend : Pose → G → List α → List β → G) (pose : Pose)
    (c : SubmapCollection G) (groups : List (ℤ × List α × List β))
    (hnodup : (groups.map (fun g => g.1)).Nodup) :
    ((integrateGroups backend pose c groups).1.submaps.map (fun e => e.1) =
      c.submaps.map (fun e => e.1)) ∧
    ((integrateGroups backend pose c groups).2 =
      (groups.map (fun g => g.1)).filter (fun i => !(submapIdExists c i))) ∧
    (∀ k, k ∉ groups.map (fun g => g.1) →
      lookupGrid (integrateGroups backend pose c groups).1 k =
        lookupGrid c k) ∧
    (∀ i, i ∈ groups.map (fun g => g.1) → submapIdExists c i = false →
      (integrateGroups backend pose c groups).2.count i = 1 ∧
      lookupGrid (integrateGroups backend pose c groups).1 i = none) := by
  obtain ⟨h1, h2, h3⟩ := integrateGroups_fold_aux backend pose groups c []
  have h2' : (integrateGroups backend pose c groups).2 =
      (groups.map (fun g => g.1)).filter (fun i => !(submapIdExists c i)) := by
    rw [integrateGroups, h2]
    simp
  refine ⟨h1, h2', h3, ?_⟩
  intro i hi hmiss
  constructor
  · rw [h2', List.count_filter (by simp [hmiss])]
    have hle : (groups.map (fun g => g.1)).count i ≤ 1 :=
      List.nodup_iff_count_le_one.mp hnodup i
    have hge : 0 < (groups.map (fun g => g.1)).count i :=
      List.count_pos_iff.mpr hi
    omega
  · apply lookupGrid_eq_none
    have h1' : (integrateGroups backend pose c groups).1.submaps.map
        (fun e => e.1) = c.submaps.map (fun e => e.1) := h1
    rw [submapIdExists_eq_keys, h1', ← submapIdExists_eq_keys]
    exact hmiss

/-- C4 witness: spec Scenario D — frame groups with ids `[1, 2]` against a
collection holding only submap `2`: exactly one warning for id `1`, whose
lookup stays `none`. -/
theorem C4_missing_id_routing_witness :
    (integrateGroups
      (fun (_ : Unit) (g : ℕ) (ps : List ℕ) (_ : List ℕ) => g + ps.length) ()
      ⟨[(2, 0)]⟩ [(1, [10, 20], [5, 6]), (2, [30], [7])]).2.count 1 = 1 ∧
    lookupGrid (integrateGroups
      (fun (_ : Unit) (g : ℕ) (ps : List ℕ) (_ : List ℕ) => g + ps.length) ()
      ⟨[(2, 0)]⟩ [(1, [10, 20], [5, 6]), (2, [30], [7])]).1 1 = none := by
  have h := C4_missing_id_routing
    (fun (_ : Unit) (g : ℕ) (ps : List ℕ) (_ : List ℕ) => g + ps.length) ()
    ⟨[(2, 0)]⟩ [(1, [10, 20], [5, 6]), (2, [30], [7])] (by decide)
  exact h.2.2.2 1 (by decide) (by decide)

end PanopticMapping
